import Mathlib

/-!
Verification development for the axdp packet-relay and shred-reassembly
pipeline.  The definitions below are a shallow embedding of the Rust sources:

* `examples/deshred_sharded.rs` — the windowed, compact reassembler
  (`SlotShrdsCompact`, `DeshredManagerLocal`);
* `examples/deshred.rs` — the unbounded reference reassembler
  (`SlotShreds`, `DeshredManager`);
* `src/relay_loop.rs` — the AF_XDP relay main loop (frame ownership among
  the free pool, Fill ring, RX ring, TX ring and Completion ring).

External library calls (`Shredder::deshred`, `bincode::deserialize`) are
modelled as an oracle parameter: both reassembler variants invoke the same
oracle, mirroring the fact that both call the same external functions.
Machine integers (`u32`, `u64`, `usize`) are modelled as `Nat`; no arithmetic
in the modelled code paths can overflow in Rust for the inputs the functions
accept, and all bit manipulation is over explicit 64-bit words.

Rust panics (out-of-bounds slice indexing) are modelled by returning `none`
from the function in question: a result of `none` marks the program aborting,
`some r` is a normal return with value/state `r`.
-/

set_option maxRecDepth 8192

namespace Axdp

/-- External library functions used by both reassembler variants, treated as
pure oracles: `deshred` models `solana_ledger::shred::Shredder::deshred`
(payload list to concatenated bytes), `deserialize` models
`bincode::deserialize::<Vec<Entry>>` (bytes to an entry sequence, entries
themselves modelled abstractly as `Nat`). -/
structure Oracle where
  deshred : List (List Nat) → Option (List Nat)
  deserialize : List Nat → Option (List Nat)

/-- Shred type tag, from `solana_ledger::shred::ShredType`. -/
inductive ShredType where
  | data : ShredType
  | code : ShredType
deriving DecidableEq, Repr

/-- The fields of a shred observed by the reassemblers: slot, index within
the slot, type, the two completeness flags, and the raw payload bytes. -/
structure Shred where
  slot : Nat
  index : Nat
  shredType : ShredType
  data_complete : Bool
  last_in_slot : Bool
  payload : List Nat
deriving DecidableEq, Repr

/-- `MAX_SHREDS_PER_SLOT` from `deshred_sharded.rs`. -/
def MAX_SHREDS_PER_SLOT : Nat := 512

/-- `SLOT_WINDOW_SIZE` from `deshred_sharded.rs`. -/
def SLOT_WINDOW_SIZE : Nat := 128

/-- State of `SlotShrdsCompact` (`deshred_sharded.rs`).  `received_mask`
models the `[u64; 8]` bitset as a list of eight 64-bit words. -/
structure SlotShrdsCompact where
  slot : Nat
  received_mask : List Nat
  shreds : List (Option Shred)
  segment_ends : List Nat
  last_processed : Nat
deriving DecidableEq, Repr

/-- `SlotShrdsCompact::new`. -/
def SlotShrdsCompact.new (slot : Nat) : SlotShrdsCompact :=
  { slot := slot
    received_mask := List.replicate (MAX_SHREDS_PER_SLOT / 64) 0
    shreds := []
    segment_ends := []
    last_processed := 0 }

/-- Read bit `i` of the word-array bitset: the Rust expression
`received_mask[i / 64] & (1 << (i % 64)) != 0`. -/
def bitGet (mask : List Nat) (i : Nat) : Bool :=
  (mask.getD (i / 64) 0) &&& (1 <<< (i % 64)) != 0

/-- Set bit `i` of the word-array bitset: the Rust statement
`received_mask[i / 64] |= 1 << (i % 64)`. -/
def bitSet (mask : List Nat) (i : Nat) : List Nat :=
  mask.set (i / 64) ((mask.getD (i / 64) 0) ||| (1 <<< (i % 64)))

/-- `SlotShrdsCompact::add_shred`.  Returns the `bool` result of the Rust
function together with the updated state (the Rust function mutates
`&mut self`). -/
def SlotShrdsCompact.addShred (shred : Shred) (s : SlotShrdsCompact) :
    Bool × SlotShrdsCompact :=
  let index := shred.index
  if index ≥ MAX_SHREDS_PER_SLOT then (false, s)
  else if bitGet s.received_mask index then (false, s)
  else
    let rm := bitSet s.received_mask index
    let se :=
      if shred.shredType = ShredType.data ∧ (shred.data_complete ∨ shred.last_in_slot)
      then s.segment_ends ++ [index]
      else s.segment_ends
    let sh0 :=
      if index ≥ s.shreds.length
      then s.shreds ++ List.replicate (index + 1 - s.shreds.length) none
      else s.shreds
    let sh := sh0.set index (some shred)
    (true, { s with received_mask := rm, segment_ends := se, shreds := sh })

/-- The gap-check loop of `try_deshred_fast`: walk the given indices in
order; `none` models the Rust panic on out-of-bounds word access
(`received_mask[word_idx]` with `word_idx ≥ 8`), `some false` is the early
return on a missing shred, `some true` means every bit was set. -/
def checkBits (mask : List Nat) : List Nat → Option Bool
  | [] => some true
  | i :: rest =>
    if i / 64 ≥ mask.length then none
    else if bitGet mask i then checkBits mask rest
    else some false

/-- The clearing loop `for idx in start..=end \x7b self.shreds[idx] = None \x7d`. -/
def clearRange (l : List (Option Shred)) (start endI : Nat) : List (Option Shred) :=
  (List.range' start (endI + 1 - start)).foldl (fun acc i => acc.set i none) l

/-- `SlotShrdsCompact::try_deshred_fast`.  The outer `Option` marks a panic
(`none`): the slice expression `&self.shreds[start_idx..=end_idx]` panics in
Rust unless `start_idx ≤ end_idx + 1 ∧ end_idx + 1 ≤ self.shreds.len()`.
On a normal return, the result carries the optional emission
`(entries, deshredded_payload)` and the post state. -/
def tryDeshredFast (o : Oracle) (s : SlotShrdsCompact) :
    Option (Option (List Nat × List Nat) × SlotShrdsCompact) :=
  match s.segment_ends with
  | [] => some (none, s)
  | e :: rest =>
    let endI := e
    let startI := s.last_processed
    match checkBits s.received_mask (List.range' startI (endI + 1 - startI)) with
    | none => none
    | some false => some (none, s)
    | some true =>
      if startI ≤ endI + 1 ∧ endI + 1 ≤ s.shreds.length then
        let slice := (s.shreds.drop startI).take (endI + 1 - startI)
        let payloads := slice.filterMap (fun os => os.map Shred.payload)
        match o.deshred payloads with
        | none => some (none, s)
        | some deshredded =>
          match o.deserialize deshredded with
          | none => some (none, s)
          | some entries =>
            some (some (entries, deshredded),
              { s with
                  segment_ends := rest
                  last_processed := endI + 1
                  shreds := clearRange s.shreds startI endI })
      else none

/-- State of `DeshredManagerLocal` (`deshred_sharded.rs`): a 128-entry
window of optional slot states plus the `current_slot` marker (the atomic is
only ever stored to with relaxed ordering by the single owning thread, so a
plain `Nat` is a faithful model). -/
structure DeshredManagerLocal where
  slots : List (Option SlotShrdsCompact)
  current_slot : Nat
deriving DecidableEq, Repr

/-- `DeshredManagerLocal::new`. -/
def DeshredManagerLocal.new : DeshredManagerLocal :=
  { slots := List.replicate SLOT_WINDOW_SIZE none, current_slot := 0 }

/-- `DeshredManagerLocal::add_shred`.  Note the replacement of a colliding
window entry with a fresh `SlotShrdsCompact` happens before the inner
`add_shred` validates the shred, exactly as in the source.  `none` marks a
panic propagated from `try_deshred_fast`. -/
def DeshredManagerLocal.addShred (o : Oracle) (shred : Shred)
    (m : DeshredManagerLocal) :
    Option (Option (Nat × List Nat × List Nat) × DeshredManagerLocal) :=
  let slot := shred.slot
  let slotIdx := slot % SLOT_WINDOW_SIZE
  let m := { m with current_slot := slot }
  let st :=
    match m.slots.getD slotIdx none with
    | some s => if s.slot = slot then s else SlotShrdsCompact.new slot
    | none => SlotShrdsCompact.new slot
  let r := SlotShrdsCompact.addShred shred st
  if r.1 = false then
    some (none, { m with slots := m.slots.set slotIdx (some r.2) })
  else
    match tryDeshredFast o r.2 with
    | none => none
    | some (res, st2) =>
      some (res.map (fun ep => (slot, ep.1, ep.2)),
        { m with slots := m.slots.set slotIdx (some st2) })

/-- `MAX_DATA_SHREDS_PER_SLOT` from `deshred.rs`. -/
def MAX_DATA_SHREDS_PER_SLOT : Nat := 32768

/-- `ShredStatus` from `deshred.rs`. -/
inductive ShredStatus where
  | unknown : ShredStatus
  | notDataComplete : ShredStatus
  | dataComplete : ShredStatus
deriving DecidableEq, Repr

/-- State of `SlotShreds` (`deshred.rs`), the unbounded variant. -/
structure SlotShreds where
  slot : Nat
  data_status : List ShredStatus
  data_shreds : List (Option Shred)
  code_shreds : List Shred
deriving DecidableEq, Repr

/-- `SlotShreds::new`. -/
def SlotShreds.new (slot : Nat) : SlotShreds :=
  { slot := slot
    data_status := List.replicate MAX_DATA_SHREDS_PER_SLOT ShredStatus.unknown
    data_shreds := List.replicate MAX_DATA_SHREDS_PER_SLOT none
    code_shreds := [] }

/-- `SlotShreds::add_shred` (the `eprintln!` debug logging has no effect on
state and is omitted). -/
def SlotShreds.addShred (shred : Shred) (t : SlotShreds) : Bool × SlotShreds :=
  let index := shred.index
  match shred.shredType with
  | ShredType.data =>
    if index ≥ MAX_DATA_SHREDS_PER_SLOT then (false, t)
    else if (t.data_shreds.getD index none).isSome then (false, t)
    else
      let isDC := shred.data_complete || shred.last_in_slot
      (true,
        { t with
            data_status := t.data_status.set index
              (if isDC then ShredStatus.dataComplete else ShredStatus.notDataComplete)
            data_shreds := t.data_shreds.set index (some shred) })
  | ShredType.code =>
    if t.code_shreds.any (fun s2 => s2.index = shred.index) then (false, t)
    else (true, { t with code_shreds := t.code_shreds ++ [shred] })

/-- The backwards scan of `SlotShreds::find_complete_segment`: starting at
index `s` (the Rust loop examines `end - 1` down to `0`), return
`Some((s' + 1, end))` on a `DataComplete`, `None` on an `Unknown` gap, and
`Some((0, end))` when the scan runs off the front. -/
def scanBack (status : List ShredStatus) (endI : Nat) : Nat → Option (Nat × Nat)
  | 0 =>
    match status.getD 0 ShredStatus.unknown with
    | ShredStatus.dataComplete => some (1, endI)
    | ShredStatus.unknown => none
    | ShredStatus.notDataComplete => some (0, endI)
  | s + 1 =>
    match status.getD (s + 1) ShredStatus.unknown with
    | ShredStatus.dataComplete => some (s + 2, endI)
    | ShredStatus.unknown => none
    | ShredStatus.notDataComplete => scanBack status endI s

/-- `SlotShreds::find_complete_segment`. -/
def findCompleteSegment (t : SlotShreds) : Option (Nat × Nat) :=
  match t.data_status.findIdx? (fun st => st = ShredStatus.dataComplete) with
  | none => none
  | some 0 => some (0, 0)
  | some (e + 1) => scanBack t.data_status (e + 1) e

/-- The status-clearing loop of `SlotShreds::try_deshred`. -/
def clearStatusRange (l : List ShredStatus) (start endI : Nat) : List ShredStatus :=
  (List.range' start (endI + 1 - start)).foldl
    (fun acc i => acc.set i ShredStatus.unknown) l

/-- `SlotShreds::try_deshred`.  As with the compact variant, the outer
`Option` marks the Rust panic of the slice `&self.data_shreds[start..=end]`.
After the all-present check the Rust code maps `unwrap().payload()` over the
slice, which on an all-`Some` slice equals the `filterMap` below. -/
def SlotShreds.tryDeshred (o : Oracle) (t : SlotShreds) :
    Option (Option (List Nat × List Nat) × SlotShreds) :=
  match findCompleteSegment t with
  | none => some (none, t)
  | some (start, endI) =>
    if start ≤ endI + 1 ∧ endI + 1 ≤ t.data_shreds.length then
      let slice := (t.data_shreds.drop start).take (endI + 1 - start)
      if slice.any (fun os => os.isNone) then some (none, t)
      else
        match o.deshred (slice.filterMap (fun os => os.map Shred.payload)) with
        | none => some (none, t)
        | some payload =>
          match o.deserialize payload with
          | none => some (none, t)
          | some entries =>
            some (some (entries, payload),
              { t with
                  data_shreds := clearRange t.data_shreds start endI
                  data_status := clearStatusRange t.data_status start endI })
    else none

/-- State of `DeshredManager` (`deshred.rs`): the `HashMap<Slot, SlotShreds>`
is modelled as an association list (lookup by key; insertion order is
irrelevant to the observable behaviour). -/
structure DeshredManager where
  slots : List (Nat × SlotShreds)
deriving DecidableEq, Repr

/-- `DeshredManager::new`. -/
def DeshredManager.new : DeshredManager := { slots := [] }

/-- Association-list lookup, modelling `HashMap::get`. -/
def lookupSlot (l : List (Nat × SlotShreds)) (slot : Nat) : Option SlotShreds :=
  match l.find? (fun p => p.1 = slot) with
  | none => none
  | some p => some p.2

/-- Association-list update-or-insert, modelling the write-back of the
`entry(slot).or_insert_with(...)` mutable reference. -/
def updateSlot (l : List (Nat × SlotShreds)) (slot : Nat) (t : SlotShreds) :
    List (Nat × SlotShreds) :=
  if l.any (fun p => p.1 = slot)
  then l.map (fun p => if p.1 = slot then (slot, t) else p)
  else l ++ [(slot, t)]

/-- The `entry(slot).or_insert_with(|| SlotShreds::new(slot))` lookup of
`DeshredManager::add_shred`. -/
def DeshredManager.getOrNew (m : DeshredManager) (slot : Nat) : SlotShreds :=
  match lookupSlot m.slots slot with
  | some s => s
  | none => SlotShreds.new slot

/-- `DeshredManager::add_shred` (debug counter logging omitted; it does not
touch reassembly state). -/
def DeshredManager.addShred (o : Oracle) (shred : Shred) (m : DeshredManager) :
    Option (Option (Nat × List Nat × List Nat) × DeshredManager) :=
  let slot := shred.slot
  let st := DeshredManager.getOrNew m slot
  let r := SlotShreds.addShred shred st
  if r.1 = false then
    some (none, { slots := updateSlot m.slots slot r.2 })
  else
    match SlotShreds.tryDeshred o r.2 with
    | none => none
    | some (res, st2) =>
      some (res.map (fun ep => (slot, ep.1, ep.2)),
        { slots := updateSlot m.slots slot st2 })

/-- Feed a list of shreds, one at a time, to a `SlotShrdsCompact`, calling
`try_deshred_fast` after every accepted insertion (exactly the call pattern
of `DeshredManagerLocal::add_shred`).  Collects the per-call emissions;
`none` marks a panic at some step. -/
def runSlotCompact (o : Oracle) :
    List Shred → SlotShrdsCompact → Option (List (Option (List Nat × List Nat)) × SlotShrdsCompact)
  | [], s => some ([], s)
  | sh :: rest, s =>
    let r := SlotShrdsCompact.addShred sh s
    if r.1 = false then
      match runSlotCompact o rest r.2 with
      | none => none
      | some (outs, s2) => some (none :: outs, s2)
    else
      match tryDeshredFast o r.2 with
      | none => none
      | some (res, s1) =>
        match runSlotCompact o rest s1 with
        | none => none
        | some (outs, s2) => some (res :: outs, s2)

/-- Feed a list of shreds to a `DeshredManagerLocal`, collecting per-call
outputs; `none` marks a panic. -/
def runLocal (o : Oracle) :
    List Shred → DeshredManagerLocal →
      Option (List (Option (Nat × List Nat × List Nat)) × DeshredManagerLocal)
  | [], m => some ([], m)
  | sh :: rest, m =>
    match DeshredManagerLocal.addShred o sh m with
    | none => none
    | some (res, m1) =>
      match runLocal o rest m1 with
      | none => none
      | some (outs, m2) => some (res :: outs, m2)

/-- Feed a list of shreds to the unbounded `DeshredManager`, collecting
per-call outputs; `none` marks a panic. -/
def runUnbounded (o : Oracle) :
    List Shred → DeshredManager →
      Option (List (Option (Nat × List Nat × List Nat)) × DeshredManager)
  | [], m => some ([], m)
  | sh :: rest, m =>
    match DeshredManager.addShred o sh m with
    | none => none
    | some (res, m1) =>
      match runUnbounded o rest m1 with
      | none => none
      | some (outs, m2) => some (res :: outs, m2)

/-- A concrete always-succeeding oracle: deshredding concatenates the
payloads, deserialization returns the bytes as the entry sequence.  Used to
instantiate the divergence and panic scenarios. -/
def oracleAll : Oracle :=
  { deshred := fun ps => some ps.flatten
    deserialize := fun bs => some bs }

/-- A data shred of slot 0 with the given index, completeness flag, and
payload `[index]`. -/
def mkData (index : Nat) (dc : Bool) : Shred :=
  { slot := 0, index := index, shredType := ShredType.data
    data_complete := dc, last_in_slot := false, payload := [index] }

/-! ## Relay main loop (`src/relay_loop.rs`)

Frames are identified by their UMEM offset (a `Nat`).  The four rings are
single-producer/single-consumer circular buffers; for frame-ownership
purposes a ring is its capacity plus the list of queued entries, and a
`write` fails exactly when the ring is full.  The UMEM free pool is the
LIFO stack of free frame offsets. -/

namespace Relay

/-- `ETH_HEADER_SIZE + IP_HEADER_SIZE + UDP_HEADER_SIZE` from `packet.rs`
as used in `relay_loop.rs`. -/
def HEADER_SIZE : Nat := 14 + 20 + 8

/-- `VOTE_SIZE_THRESHOLD` from `relay_loop.rs`. -/
def VOTE_SIZE_THRESHOLD : Nat := 400

/-- `IPPROTO_UDP`. -/
def IPPROTO_UDP : Nat := 17

/-- A ring as seen by the frame-ownership discipline: capacity plus queued
frame offsets. -/
structure Ring where
  cap : Nat
  buf : List Nat
deriving DecidableEq, Repr

/-- `ring.write(desc)`: fails (returns `none`) exactly when the ring is
full, otherwise enqueues the frame offset. -/
def Ring.write (r : Ring) (x : Nat) : Option Ring :=
  if r.buf.length < r.cap then some { r with buf := r.buf ++ [x] } else none

/-- An RX descriptor: the frame offset (`desc.addr`) and the packet bytes
in that frame (`desc.len` is the length of this byte list). -/
structure RxDesc where
  addr : Nat
  packet : List Nat
deriving DecidableEq, Repr

/-- The relay-loop state restricted to frame ownership: the UMEM free pool,
the Fill ring, the pending RX descriptors, the TX ring and the pending
Completion entries. -/
structure LoopState where
  pool : List Nat
  fill : Ring
  rx : List RxDesc
  tx : Ring
  comp : List Nat
deriving DecidableEq, Repr

/-- The fallback used throughout the RX path: try to return the frame to
the Fill ring; if the Fill ring is full, release it to the UMEM free pool
(`if fill.write(frame).is_err() \x7b umem.release(offset) \x7d`). -/
def returnToFill (addr : Nat) (st : LoopState) : LoopState :=
  match st.fill.write addr with
  | some f => { st with fill := f }
  | none => { st with pool := addr :: st.pool }

/-- Processing of one drained RX descriptor in `relay_loop`:
reject short packets (under `HEADER_SIZE + VOTE_SIZE_THRESHOLD` bytes) to
Fill; reject non-UDP (IP protocol byte at packet offset `ETH + 9 = 23`) to
Fill; otherwise, when forwarding is configured, rewrite headers in place
(which does not move the frame) and enqueue the same frame on TX, falling
back to Fill (then pool) when TX is full; without a forwarding target the
frame goes back to Fill. -/
def processRxDesc (forward : Bool) (st : LoopState) (d : RxDesc) : LoopState :=
  if d.packet.length < HEADER_SIZE + VOTE_SIZE_THRESHOLD then
    returnToFill d.addr st
  else if d.packet.getD (14 + 9) 0 ≠ IPPROTO_UDP then
    returnToFill d.addr st
  else if forward then
    match st.tx.write d.addr with
    | some t => { st with tx := t }
    | none => returnToFill d.addr st
  else
    returnToFill d.addr st

/-- Drain the Completion ring: every completed frame is released to the
UMEM free pool (`while let Some(offset) = completion.read() \x7b
umem.release(offset) \x7d`). -/
def drainCompletion (st : LoopState) : LoopState :=
  { st with comp := [], pool := st.comp.foldl (fun p a => a :: p) st.pool }

/-- The refill loop: while the Fill ring has space and the UMEM free pool
has frames, move a frame from the pool into Fill. -/
def refill : Ring → List Nat → Ring × List Nat
  | f, [] => (f, [])
  | f, a :: rest =>
    if f.buf.length < f.cap then refill { f with buf := f.buf ++ [a] } rest
    else (f, a :: rest)

/-- One iteration of the relay main loop: drain Completion to the pool,
drain and process every pending RX descriptor, then refill the Fill ring
from the pool.  (The `sync`/`commit` calls publish indices and move no
frames.) -/
def relayIteration (forward : Bool) (st : LoopState) : LoopState :=
  let st1 := drainCompletion st
  let st2 := st1.rx.foldl (processRxDesc forward) { st1 with rx := [] }
  let fp := refill st2.fill st2.pool
  { st2 with fill := fp.1, pool := fp.2 }

/-- The multiset of frames over all owners: free pool, Fill ring, RX ring
(in-flight descriptors), TX ring, Completion ring. -/
def allFrames (st : LoopState) : Multiset Nat :=
  (st.pool : Multiset Nat) + (st.fill.buf : Multiset Nat) +
    ((st.rx.map RxDesc.addr : List Nat) : Multiset Nat) +
    (st.tx.buf : Multiset Nat) + (st.comp : Multiset Nat)

end Relay

/-! ## Concrete scenarios -/

/-- Input with two data-complete segments in slot 0: indices 0, 1 (terminator),
2, 3 (terminator), in index order.  No slot-window eviction occurs (all four
shreds share slot 0). -/
def c1Input : List Shred :=
  [mkData 0 false, mkData 1 true, mkData 2 false, mkData 3 true]

/-- Input whose terminators arrive out of index order: plain shreds 0–3,
terminator 5, terminator 4 (both for slot 0), then plain shred 6.  After the
segment ending at 5 is emitted, `segment_ends` still holds 4 while
`last_processed` is 6. -/
def c2Input : List Shred :=
  [mkData 0 false, mkData 1 false, mkData 2 false, mkData 3 false,
   mkData 5 true, mkData 4 true, mkData 6 false]

/-- Unbounded-variant slot state after feeding `mkData 0 false` to a fresh
slot-0 `SlotShreds`. -/
def u1 : SlotShreds := (SlotShreds.addShred (mkData 0 false) (SlotShreds.new 0)).2

/-- Unbounded-variant slot state after additionally feeding `mkData 1 true`. -/
def u2 : SlotShreds := (SlotShreds.addShred (mkData 1 true) u1).2

/-- Unbounded-variant slot state after the emission of segment `[0, 1]`. -/
def u2e : SlotShreds :=
  { u2 with
      data_shreds := clearRange u2.data_shreds 0 1
      data_status := clearStatusRange u2.data_status 0 1 }

/-- Unbounded-variant slot state after additionally feeding `mkData 2 false`. -/
def u3 : SlotShreds := (SlotShreds.addShred (mkData 2 false) u2e).2

/-- Unbounded-variant slot state after additionally feeding `mkData 3 true`. -/
def u4 : SlotShreds := (SlotShreds.addShred (mkData 3 true) u3).2

/-- Unbounded manager state after the first `c1Input` shred. -/
def uM1 : DeshredManager := { slots := [(0, u1)] }

/-- Unbounded manager state after the second `c1Input` shred (segment
`[0, 1]` emitted). -/
def uM2 : DeshredManager := { slots := [(0, u2e)] }

/-- Unbounded manager state after the third `c1Input` shred. -/
def uM3 : DeshredManager := { slots := [(0, u3)] }

/-- Unbounded manager state after the fourth `c1Input` shred. -/
def uM4 : DeshredManager := { slots := [(0, u4)] }

/-- Invariant of compact slot states: the bitset has its eight words, the
shred table and `last_processed` stay within `MAX_SHREDS_PER_SLOT`, every
pending terminator index is in range, bit `i` is set exactly when shred `i`
is currently stored or was consumed by an emission (`i < last_processed`),
and consumed positions hold no shred. -/
structure SlotInv (s : SlotShrdsCompact) : Prop where
  mask_len : s.received_mask.length = 8
  shreds_len : s.shreds.length ≤ 512
  lp_le : s.last_processed ≤ 512
  ends_lt : ∀ e ∈ s.segment_ends, e < 512
  bit_iff : ∀ i : Nat, bitGet s.received_mask i = true ↔
    (i < s.last_processed ∨ (s.shreds.getD i none).isSome = true)
  below_none : ∀ i : Nat, i < s.last_processed → s.shreds.getD i none = none

/-- States of one slot reachable from a fresh `SlotShrdsCompact` by any
sequence of `add_shred` and (non-panicking) `try_deshred_fast` calls. -/
inductive Reach (o : Oracle) : SlotShrdsCompact → Prop where
  | fresh : ∀ slot, Reach o (SlotShrdsCompact.new slot)
  | add : ∀ {s : SlotShrdsCompact} (sh : Shred), Reach o s →
      Reach o (SlotShrdsCompact.addShred sh s).2
  | deshred : ∀ {s : SlotShrdsCompact} {r} {s' : SlotShrdsCompact}, Reach o s →
      tryDeshredFast o s = some (r, s') → Reach o s'

/-- Population count of the 512-bit receive bitset: the number of indices
below `MAX_SHREDS_PER_SLOT` whose bit is set (for eight words each below
`2^64` this equals the sum of the per-word `count_ones()`). -/
def countOnes (mask : List Nat) : Nat :=
  (List.range 512).countP (fun i => bitGet mask i)

/-- Compact slot state after feeding the terminator `mkData 0 true` to a
fresh slot-0 state: bit 0 set, `segment_ends = [0]`. -/
def v1 : SlotShrdsCompact :=
  (SlotShrdsCompact.addShred (mkData 0 true) (SlotShrdsCompact.new 0)).2

/-- Compact slot state after the emission of segment `[0, 0]` from `v1`:
bit 0 remains set while the stored shred is cleared. -/
def v1e : SlotShrdsCompact :=
  match tryDeshredFast oracleAll v1 with
  | some (_, s') => s'
  | none => v1

/-- Compact slot state after feeding plain shreds 0–3 and the out-of-order
terminators 5 then 4 (`c2Input` without its last element). -/
def w6 : SlotShrdsCompact :=
  (c2Input.take 6).foldl (fun s sh => (SlotShrdsCompact.addShred sh s).2)
    (SlotShrdsCompact.new 0)

/-- Compact slot state after the emission of segment `[0, 5]` from `w6`:
`last_processed = 6` while `segment_ends` still holds the stale index 4. -/
def w6e : SlotShrdsCompact :=
  match tryDeshredFast oracleAll w6 with
  | some (_, s') => s'
  | none => w6

/-- The state on which the next `try_deshred_fast` call panics: `w6e`
after additionally storing the plain shred `mkData 6 false`. -/
def c5CexState : SlotShrdsCompact :=
  (SlotShrdsCompact.addShred (mkData 6 false) w6e).2

/-- Compact slot state holding only the terminator at index 1: the segment
`[0, 1]` has a gap at index 0, so `try_deshred_fast` returns `None`. -/
def vGap : SlotShrdsCompact :=
  (SlotShrdsCompact.addShred (mkData 1 true) (SlotShrdsCompact.new 0)).2

/-- A window manager holding slot 5 at window index 5, about to receive a
shred of slot 133 (which collides at index `133 % 128 = 5`). -/
def c10Manager : DeshredManagerLocal :=
  { slots := (List.replicate SLOT_WINDOW_SIZE none).set 5 (some (SlotShrdsCompact.new 5))
    current_slot := 5 }

/-- A slot-133 data shred with out-of-range index 512 (`≥ MAX_SHREDS_PER_SLOT`,
so the inner `add_shred` rejects it). -/
def c10Shred : Shred :=
  { slot := 133, index := 512, shredType := ShredType.data
    data_complete := false, last_in_slot := false, payload := [9] }

/-- A 100-byte packet in frame 7: shorter than the 442-byte minimum. -/
def c9Desc : Relay.RxDesc := { addr := 7, packet := List.replicate 100 0 }

/-- A small loop state used to instantiate the relay theorems. -/
def c9State : Relay.LoopState :=
  { pool := [1]
    fill := { cap := 2, buf := [2] }
    rx := []
    tx := { cap := 2, buf := [3] }
    comp := [4] }

/-- A loop state whose TX and Fill rings are both full. -/
def c4FullState : Relay.LoopState :=
  { pool := []
    fill := { cap := 0, buf := [] }
    rx := []
    tx := { cap := 1, buf := [8] }
    comp := [] }

/-- An eligible 442-byte UDP packet (every byte 17, so the protocol byte at
offset 23 is 17) in frame 9. -/
def c4Desc : Relay.RxDesc := { addr := 9, packet := List.replicate 442 17 }

/-! ## General lemmas -/

/-- An `if` producing `some v` or `none` never equals `some w` for `w ≠ v`. -/
theorem ifSomeNe {c : Prop} [Decidable c] {v w : ShredStatus} (hv : v ≠ w)
    (h : (if c then some v else none) = some w) : False := by
  split at h
  · exact hv (Option.some.inj h)
  · exact Option.noConfusion h

/-- `SlotShreds::try_deshred` returns `None` untouched when no complete
segment is found. -/
theorem tryDeshred_of_find_none (o : Oracle) (t : SlotShreds)
    (h : findCompleteSegment t = none) :
    SlotShreds.tryDeshred o t = some (none, t) := by
  unfold SlotShreds.tryDeshred
  rw [h]

/-- `position(DataComplete)` finds nothing when no entry of the status list
is `DataComplete`. -/
theorem findIdx_none_of_pointwise (l : List ShredStatus)
    (h : ∀ (i : Nat) (x : ShredStatus), l[i]? = some x → x ≠ ShredStatus.dataComplete) :
    List.findIdx? (fun st => st = ShredStatus.dataComplete) l = none := by
  rw [List.findIdx?_eq_none_iff]
  intro x hx
  obtain ⟨i, hi⟩ := List.mem_iff_getElem?.mp hx
  simp only [decide_eq_false_iff_not]
  exact h i x hi

/-- One `DeshredManager::add_shred` step in the accepting case, assembled
from the inner `add_shred` and `try_deshred` results. -/
theorem managerAdd_accept (o : Oracle) (sh : Shred) (m : DeshredManager)
    (st st2 : SlotShreds) (res : Option (List Nat × List Nat))
    (hadd : SlotShreds.addShred sh (DeshredManager.getOrNew m sh.slot) = (true, st))
    (htry : SlotShreds.tryDeshred o st = some (res, st2)) :
    DeshredManager.addShred o sh m =
      some (res.map (fun ep => (sh.slot, ep.1, ep.2)),
        { slots := updateSlot m.slots sh.slot st2 }) := by
  unfold DeshredManager.addShred
  simp only [hadd, htry]
  simp

/-- Unfolding lemma for `runUnbounded` on a cons cell. -/
theorem runUnbounded_cons (o : Oracle) (sh : Shred) (rest : List Shred)
    (m m1 m2 : DeshredManager) (res : Option (Nat × List Nat × List Nat))
    (outs : List (Option (Nat × List Nat × List Nat)))
    (h1 : DeshredManager.addShred o sh m = some (res, m1))
    (h2 : runUnbounded o rest m1 = some (outs, m2)) :
    runUnbounded o (sh :: rest) m = some (res :: outs, m2) := by
  unfold runUnbounded
  rw [h1]
  simp only [h2]

/-- Shape of `u1`'s status list. -/
theorem u1_shape : u1.data_status
    = (List.replicate 32768 ShredStatus.unknown).set 0 ShredStatus.notDataComplete := rfl

/-- No status of `u1` is `DataComplete`. -/
theorem u1_pointwise : ∀ (i : Nat) (x : ShredStatus),
    u1.data_status[i]? = some x → x ≠ ShredStatus.dataComplete := by
  intro i x h hx
  subst hx
  rw [u1_shape, List.getElem?_set] at h
  by_cases h0 : 0 = i
  · rw [if_pos h0] at h
    exact ifSomeNe (by decide) h
  · rw [if_neg h0, List.getElem?_replicate] at h
    exact ifSomeNe (by decide) h

/-- Shape of `u3`'s status list: the original `set`s of indices 0 and 1
(index 1 to `DataComplete`), the clearing of both back to `Unknown` by the
emission of segment `[0, 1]`, then the `set` of index 2. -/
theorem u3_shape : u3.data_status = (((((List.replicate 32768 ShredStatus.unknown).set 0
    ShredStatus.notDataComplete).set 1 ShredStatus.dataComplete).set 0
    ShredStatus.unknown).set 1 ShredStatus.unknown).set 2 ShredStatus.notDataComplete := by
  show (clearStatusRange u2.data_status 0 1).set 2 _ = _
  rfl

/-- No status of `u3` is `DataComplete`: indices 0 and 1 were cleared to
`Unknown` by the first emission, index 2 is `NotDataComplete`, everything
else is untouched `Unknown`. -/
theorem u3_pointwise : ∀ (i : Nat) (x : ShredStatus),
    u3.data_status[i]? = some x → x ≠ ShredStatus.dataComplete := by
  intro i x h hx
  subst hx
  rw [u3_shape, List.getElem?_set] at h
  by_cases h2 : 2 = i
  · rw [if_pos h2] at h
    exact ifSomeNe (by decide) h
  · rw [if_neg h2, List.getElem?_set] at h
    by_cases h1 : 1 = i
    · rw [if_pos h1] at h
      exact ifSomeNe (by decide) h
    · rw [if_neg h1, List.getElem?_set] at h
      by_cases h0 : 0 = i
      · rw [if_pos h0] at h
        exact ifSomeNe (by decide) h
      · rw [if_neg h0, List.getElem?_set, if_neg h1, List.getElem?_set, if_neg h0,
          List.getElem?_replicate] at h
        exact ifSomeNe (by decide) h

/-- After one plain shred, the unbounded variant finds no segment. -/
theorem find_u1 : findCompleteSegment u1 = none := by
  unfold findCompleteSegment
  rw [findIdx_none_of_pointwise _ u1_pointwise]

/-- After the first emission plus one plain shred, the unbounded variant
finds no segment. -/
theorem find_u3 : findCompleteSegment u3 = none := by
  unfold findCompleteSegment
  rw [findIdx_none_of_pointwise _ u3_pointwise]

/-- With the terminator at index 1 present, the segment `[0, 1]` is found. -/
theorem find_u2 : findCompleteSegment u2 = some (0, 1) := rfl

/-- After the second terminator (index 3) arrives, the backwards scan from
index 3 hits the `Unknown` left at index 1 by the first emission and reports
no segment. -/
theorem find_u4 : findCompleteSegment u4 = none := rfl

/-- Length of `u2`'s shred table. -/
theorem len_u2 : u2.data_shreds.length = 32768 := by
  rw [show u2.data_shreds = ((List.replicate 32768 (none : Option Shred)).set 0
    (some (mkData 0 false))).set 1 (some (mkData 1 true)) from rfl]
  simp only [List.length_set, List.length_replicate]

/-- The unbounded variant emits segment `[0, 1]` from `u2`. -/
theorem try_u2 : SlotShreds.tryDeshred oracleAll u2 = some (some ([0, 1], [0, 1]), u2e) := by
  unfold SlotShreds.tryDeshred
  rw [find_u2]
  simp only []
  rw [if_pos (by rw [len_u2]; omega : (0 : Nat) ≤ 1 + 1 ∧ 1 + 1 ≤ u2.data_shreds.length)]
  rfl

/-- Step 1 of the `c1Input` run on the unbounded manager. -/
theorem c1u_step1 : DeshredManager.addShred oracleAll (mkData 0 false) DeshredManager.new
    = some (none, uM1) := by
  have := managerAdd_accept oracleAll (mkData 0 false) DeshredManager.new u1 u1 none
    rfl (tryDeshred_of_find_none _ _ find_u1)
  simpa using this

/-- Step 2 of the `c1Input` run on the unbounded manager: segment `[0, 1]`
is emitted. -/
theorem c1u_step2 : DeshredManager.addShred oracleAll (mkData 1 true) uM1
    = some (some (0, [0, 1], [0, 1]), uM2) := by
  have := managerAdd_accept oracleAll (mkData 1 true) uM1 u2 u2e (some ([0, 1], [0, 1]))
    rfl try_u2
  simpa using this

/-- Step 3 of the `c1Input` run on the unbounded manager. -/
theorem c1u_step3 : DeshredManager.addShred oracleAll (mkData 2 false) uM2
    = some (none, uM3) := by
  have := managerAdd_accept oracleAll (mkData 2 false) uM2 u3 u3 none
    rfl (tryDeshred_of_find_none _ _ find_u3)
  simpa using this

/-- Step 4 of the `c1Input` run on the unbounded manager: although the
terminator at index 3 arrived and shreds 2 and 3 are stored, no segment is
emitted. -/
theorem c1u_step4 : DeshredManager.addShred oracleAll (mkData 3 true) uM3
    = some (none, uM4) := by
  have := managerAdd_accept oracleAll (mkData 3 true) uM3 u4 u4 none
    rfl (tryDeshred_of_find_none _ _ find_u4)
  simpa using this

/-- The full `c1Input` run on the unbounded manager. -/
theorem run_unbounded_c1 :
    runUnbounded oracleAll c1Input DeshredManager.new
      = some ([none, some (0, [0, 1], [0, 1]), none, none], uM4) :=
  runUnbounded_cons _ _ _ _ _ _ _ _ c1u_step1
    (runUnbounded_cons _ _ _ _ _ _ _ _ c1u_step2
      (runUnbounded_cons _ _ _ _ _ _ _ _ c1u_step3
        (runUnbounded_cons _ _ _ _ _ _ _ _ c1u_step4 rfl)))

/-- The full `c1Input` run on the windowed manager: both segments emitted. -/
theorem run_local_c1 :
    (runLocal oracleAll c1Input DeshredManagerLocal.new).map Prod.fst
      = some [none, some (0, [0, 1], [0, 1]), none, some (0, [2, 3], [2, 3])] := by
  decide

/-! ## Compact-reassembler lemmas -/

theorem and_pow_ne (x b : Nat) : ((x &&& (1 <<< b)) != 0) = x.testBit b := by
  rw [Nat.one_shiftLeft, Nat.and_two_pow]
  cases h : x.testBit b
  · simp
  · simp [Nat.pos_pow_of_pos]

theorem bitGet_eq_testBit (mask : List Nat) (i : Nat) :
    bitGet mask i = (mask.getD (i / 64) 0).testBit (i % 64) := by
  unfold bitGet
  exact and_pow_ne _ _

theorem bitGet_of_ge (mask : List Nat) (i : Nat) (h : mask.length ≤ i / 64) :
    bitGet mask i = false := by
  rw [bitGet_eq_testBit, List.getD_eq_default _ _ h]
  simp

theorem bitGet_lt (mask : List Nat) (i : Nat) (hlen : mask.length = 8)
    (h : bitGet mask i = true) : i < 512 := by
  by_contra hge
  rw [bitGet_of_ge] at h
  · exact Bool.noConfusion h
  · omega

theorem div_mod_inj {i j : Nat} (hd : i / 64 = j / 64) (hm : i % 64 = j % 64) : i = j := by
  omega

theorem bitGet_bitSet_self (mask : List Nat) (i : Nat) (hw : i / 64 < mask.length) :
    bitGet (bitSet mask i) i = true := by
  rw [bitGet_eq_testBit]
  unfold bitSet
  rw [List.getD_eq_getElem?_getD, List.getElem?_set_self hw]
  simp [Nat.testBit_lor, Nat.testBit_two_pow_self]

theorem bitGet_bitSet_ne (mask : List Nat) (i j : Nat) (hne : j ≠ i) :
    bitGet (bitSet mask i) j = bitGet mask j := by
  rw [bitGet_eq_testBit, bitGet_eq_testBit]
  unfold bitSet
  rw [List.getD_eq_getElem?_getD, List.getElem?_set]
  by_cases hw : i / 64 = j / 64
  · rw [if_pos hw]
    by_cases hlt : i / 64 < mask.length
    · rw [if_pos hlt]
      simp only [Option.getD_some]
      rw [Nat.testBit_lor, Nat.one_shiftLeft, Nat.testBit_two_pow]
      have hm : i % 64 ≠ j % 64 := fun hm => hne (div_mod_inj hw hm).symm
      rw [hw]
      simp [hm]
    · rw [if_neg hlt]
      simp only [Option.getD_none]
      rw [hw] at hlt
      rw [List.getD_eq_default _ _ (by omega)]
  · rw [if_neg hw, ← List.getD_eq_getElem?_getD]

-- resize-then-set table lookup
theorem getD_resize_set (l : List (Option Shred)) (index : Nat) (v : Shred) (j : Nat) :
    ((if index ≥ l.length then l ++ List.replicate (index + 1 - l.length) none else l).set
      index (some v)).getD j none
      = if j = index then some v else l.getD j none := by
  set l0 := if index ≥ l.length then l ++ List.replicate (index + 1 - l.length) none else l
    with hl0
  have hlen : index < l0.length := by
    rw [hl0]
    split
    · rw [List.length_append, List.length_replicate]
      omega
    · omega
  rw [List.getD_eq_getElem?_getD, List.getElem?_set]
  by_cases hj : index = j
  · rw [if_pos hj, if_pos hlen]
    rw [if_pos hj.symm]
    rfl
  · rw [if_neg hj, if_neg (fun hh => hj hh.symm)]
    rw [hl0]
    split
    · rw [List.getElem?_append]
      split
      · rw [← List.getD_eq_getElem?_getD]
      · rw [List.getElem?_replicate]
        rw [List.getD_eq_default _ _ (by omega)]
        split <;> rfl
    · rw [← List.getD_eq_getElem?_getD]

-- length after resize-set
theorem length_resize_set (l : List (Option Shred)) (index : Nat) (v : Shred) :
    ((if index ≥ l.length then l ++ List.replicate (index + 1 - l.length) none else l).set
      index (some v)).length = max l.length (index + 1) := by
  rw [List.length_set]
  split
  · rw [List.length_append, List.length_replicate]
    omega
  · omega

-- clearRange lookup: foldl of sets over range' a n
theorem getD_foldl_set_none (n a : Nat) (l : List (Option Shred)) (j : Nat) :
    ((List.range' a n).foldl (fun acc i => acc.set i none) l).getD j none
      = if a ≤ j ∧ j < a + n then none else l.getD j none := by
  induction n generalizing a l with
  | zero => rw [if_neg (by omega)]; simp
  | succ m ih =>
    rw [List.range'_succ, List.foldl_cons, ih]
    by_cases hj : a + 1 ≤ j ∧ j < a + 1 + m
    · rw [if_pos hj, if_pos (by omega)]
    · rw [if_neg hj]
      by_cases hja : j = a
      · subst hja
        rw [if_pos (by omega)]
        rw [List.getD_eq_getElem?_getD, List.getElem?_set]
        rw [if_pos rfl]
        split
        · rfl
        · rfl
      · rw [if_neg (by omega)]
        rw [List.getD_eq_getElem?_getD, List.getElem?_set, if_neg (fun hh => hja hh.symm),
          ← List.getD_eq_getElem?_getD]

theorem getD_clearRange (l : List (Option Shred)) (a b j : Nat) :
    (clearRange l a b).getD j none
      = if a ≤ j ∧ j ≤ b then none else l.getD j none := by
  unfold clearRange
  rw [getD_foldl_set_none]
  by_cases hab : a ≤ b
  · have : a + (b + 1 - a) = b + 1 := by omega
    rw [this]
    by_cases hj : a ≤ j ∧ j < b + 1
    · rw [if_pos hj, if_pos (by omega)]
    · rw [if_neg hj, if_neg (by omega)]
  · have : b + 1 - a = 0 := by omega
    rw [this]
    rw [if_neg (by omega), if_neg (by omega)]

theorem length_foldl_set_none (idxs : List Nat) (l : List (Option Shred)) :
    (idxs.foldl (fun acc i => acc.set i none) l).length = l.length := by
  induction idxs generalizing l with
  | nil => rfl
  | cons i rest ih =>
    rw [List.foldl_cons, ih, List.length_set]

theorem length_clearRange (l : List (Option Shred)) (a b : Nat) :
    (clearRange l a b).length = l.length := by
  unfold clearRange
  exact length_foldl_set_none _ _

-- checkBits on in-range indices computes the conjunction of the bits
theorem checkBits_eq (mask : List Nat) (idxs : List Nat) (hlen : mask.length = 8)
    (hall : ∀ i ∈ idxs, i < 512) :
    checkBits mask idxs = some (idxs.all (fun i => bitGet mask i)) := by
  induction idxs with
  | nil => rfl
  | cons i rest ih =>
    unfold checkBits
    have hi : i < 512 := hall i (List.mem_cons_self _ _)
    rw [if_neg (by omega)]
    by_cases hb : bitGet mask i
    · rw [if_pos hb, ih (fun k hk => hall k (List.mem_cons_of_mem _ hk))]
      simp [hb]
    · rw [if_neg hb]
      simp [Bool.of_not_eq_true hb]

theorem inv_new (slot : Nat) : SlotInv (SlotShrdsCompact.new slot) := by
  have hbit : ∀ i : Nat, bitGet (SlotShrdsCompact.new slot).received_mask i = false := by
    intro i
    rw [bitGet_eq_testBit]
    have : (SlotShrdsCompact.new slot).received_mask.getD (i / 64) 0 = 0 := by
      show (List.replicate (MAX_SHREDS_PER_SLOT / 64) 0).getD (i / 64) 0 = 0
      rw [List.getD_eq_getElem?_getD, List.getElem?_replicate]
      split <;> rfl
    rw [this]
    simp
  refine ⟨rfl, by simp [SlotShrdsCompact.new], by simp [SlotShrdsCompact.new], ?_, ?_, ?_⟩
  · intro e he
    simp [SlotShrdsCompact.new] at he
  · intro i
    rw [hbit i]
    constructor
    · intro h
      exact Bool.noConfusion h
    · intro h
      rcases h with h | h
      · simp [SlotShrdsCompact.new] at h
      · simp [SlotShrdsCompact.new] at h
  · intro i h
    simp [SlotShrdsCompact.new] at h

-- characterization of addShred in the accepting case
theorem addShred_accept (sh : Shred) (s : SlotShrdsCompact)
    (hidx : sh.index < MAX_SHREDS_PER_SLOT)
    (hbit : bitGet s.received_mask sh.index = false) :
    SlotShrdsCompact.addShred sh s =
      (true,
        { s with
            received_mask := bitSet s.received_mask sh.index
            segment_ends :=
              if sh.shredType = ShredType.data ∧ (sh.data_complete ∨ sh.last_in_slot)
              then s.segment_ends ++ [sh.index]
              else s.segment_ends
            shreds := ((if sh.index ≥ s.shreds.length
              then s.shreds ++ List.replicate (sh.index + 1 - s.shreds.length) none
              else s.shreds).set sh.index (some sh)) }) := by
  unfold SlotShrdsCompact.addShred
  rw [if_neg (by omega), if_neg (by rw [hbit]; exact Bool.false_ne_true)]

theorem addShred_reject (sh : Shred) (s : SlotShrdsCompact)
    (h : sh.index ≥ MAX_SHREDS_PER_SLOT ∨ bitGet s.received_mask sh.index = true) :
    SlotShrdsCompact.addShred sh s = (false, s) := by
  unfold SlotShrdsCompact.addShred
  rcases h with h | h
  · rw [if_pos h]
  · by_cases hidx : sh.index ≥ MAX_SHREDS_PER_SLOT
    · rw [if_pos hidx]
    · rw [if_neg hidx, if_pos h]

theorem inv_addShred (sh : Shred) (s : SlotShrdsCompact) (hinv : SlotInv s) :
    SlotInv (SlotShrdsCompact.addShred sh s).2 := by
  by_cases hrej : sh.index ≥ MAX_SHREDS_PER_SLOT ∨ bitGet s.received_mask sh.index = true
  · rw [addShred_reject sh s hrej]
    exact hinv
  · push_neg at hrej
    obtain ⟨hidx, hbit⟩ := hrej
    have hidx' : sh.index < MAX_SHREDS_PER_SLOT := by omega
    rw [addShred_accept sh s hidx' (Bool.not_eq_true _ ▸ hbit)]
    dsimp only
    have hMAX : MAX_SHREDS_PER_SLOT = 512 := rfl
    refine ⟨?_, ?_, hinv.lp_le, ?_, ?_, ?_⟩
    · show (bitSet s.received_mask sh.index).length = 8
      unfold bitSet
      rw [List.length_set]
      exact hinv.mask_len
    · show (_ : List (Option Shred)).length ≤ 512
      rw [length_resize_set]
      have := hinv.shreds_len
      omega
    · intro e he
      dsimp only at he
      split at he
      · rcases List.mem_append.mp he with h | h
        · exact hinv.ends_lt e h
        · rcases List.mem_singleton.mp h with rfl
          omega
      · exact hinv.ends_lt e he
    · intro i
      dsimp only
      rw [getD_resize_set]
      by_cases hi : i = sh.index
      · subst hi
        rw [bitGet_bitSet_self _ _ (by rw [hinv.mask_len]; omega)]
        rw [if_pos rfl]
        simp
      · rw [bitGet_bitSet_ne _ _ _ hi, if_neg hi]
        exact hinv.bit_iff i
    · intro i hlt
      dsimp only at hlt ⊢
      rw [getD_resize_set]
      by_cases hi : i = sh.index
      · have hlt2 : sh.index < s.last_processed := hi ▸ hlt
        have : bitGet s.received_mask sh.index = true :=
          (hinv.bit_iff sh.index).mpr (Or.inl hlt2)
        rw [this] at hbit
        exact absurd rfl hbit
      · rw [if_neg hi]
        exact hinv.below_none i hlt

-- dissection of a non-panicking try_deshred_fast call
theorem tryDeshredFast_cases (o : Oracle) (s : SlotShrdsCompact)
    (r : Option (List Nat × List Nat)) (s' : SlotShrdsCompact)
    (h : tryDeshredFast o s = some (r, s')) :
    (r = none ∧ s' = s) ∨
    (∃ e rest entries payload,
      s.segment_ends = e :: rest ∧ r = some (entries, payload) ∧
      checkBits s.received_mask
        (List.range' s.last_processed (e + 1 - s.last_processed)) = some true ∧
      s.last_processed ≤ e + 1 ∧ e + 1 ≤ s.shreds.length ∧
      o.deshred (((s.shreds.drop s.last_processed).take
        (e + 1 - s.last_processed)).filterMap (fun os => os.map Shred.payload))
        = some payload ∧
      o.deserialize payload = some entries ∧
      s' = { s with
               segment_ends := rest
               last_processed := e + 1
               shreds := clearRange s.shreds s.last_processed e }) := by
  unfold tryDeshredFast at h
  split at h
  · rename_i hse
    left
    cases h
    exact ⟨rfl, rfl⟩
  · rename_i e rest hse
    dsimp only at h
    split at h
    · exact Option.noConfusion h
    · rename_i hchk
      left
      cases h
      exact ⟨rfl, rfl⟩
    · rename_i hchk
      split at h
      · rename_i hcond
        split at h
        · rename_i hdes
          left
          cases h
          exact ⟨rfl, rfl⟩
        · rename_i payload hdes
          split at h
          · left
            cases h
            exact ⟨rfl, rfl⟩
          · rename_i entries hent
            right
            cases h
            exact ⟨e, rest, entries, payload, hse, rfl, hchk, hcond.1, hcond.2, hdes, hent, rfl⟩
      · exact Option.noConfusion h

-- checkBits true means every listed bit is set
theorem checkBits_true_mem (mask : List Nat) (idxs : List Nat)
    (h : checkBits mask idxs = some true) :
    ∀ i ∈ idxs, bitGet mask i = true := by
  induction idxs with
  | nil => intro i hi; cases hi
  | cons a rest ih =>
    unfold checkBits at h
    split at h
    · exact Option.noConfusion h
    · split at h
      · rename_i hb
        intro i hi
        rcases List.mem_cons.mp hi with rfl | hi
        · exact hb
        · exact ih h i hi
      · cases h

theorem inv_tryDeshredFast (o : Oracle) (s : SlotShrdsCompact)
    (r : Option (List Nat × List Nat)) (s' : SlotShrdsCompact)
    (hinv : SlotInv s) (h : tryDeshredFast o s = some (r, s')) : SlotInv s' := by
  rcases tryDeshredFast_cases o s r s' h with ⟨-, rfl⟩ | ⟨e, rest, entries, payload,
    hse, hr, hchk, hle, hlen, hdes, hent, rfl⟩
  · exact hinv
  · have he512 : e < 512 := hinv.ends_lt e (hse ▸ List.mem_cons_self _ _)
    have hbits : ∀ i, s.last_processed ≤ i → i ≤ e → bitGet s.received_mask i = true := by
      intro i h1 h2
      exact checkBits_true_mem _ _ hchk i
        (List.mem_range'_1.mpr ⟨h1, by omega⟩)
    refine ⟨hinv.mask_len, ?_, by dsimp only; omega, ?_, ?_, ?_⟩
    · dsimp only
      rw [length_clearRange]
      exact hinv.shreds_len
    · intro x hx
      exact hinv.ends_lt x (hse ▸ List.mem_cons_of_mem _ hx)
    · intro i
      dsimp only
      rw [getD_clearRange]
      by_cases hin : s.last_processed ≤ i ∧ i ≤ e
      · rw [if_pos hin]
        simp only [Option.isSome_none, Bool.false_eq_true, or_false]
        constructor
        · intro _
          omega
        · intro _
          exact hbits i hin.1 hin.2
      · rw [if_neg hin]
        rcases Nat.lt_or_ge i s.last_processed with hlt | hge
        · constructor
          · intro _
            left
            omega
          · intro _
            exact (hinv.bit_iff i).mpr (Or.inl hlt)
        · have hie : e < i := by omega
          rw [hinv.bit_iff i]
          constructor
          · intro hh
            rcases hh with hh | hh
            · omega
            · exact Or.inr hh
          · intro hh
            rcases hh with hh | hh
            · omega
            · exact Or.inr hh
    · intro i hi
      dsimp only at hi ⊢
      rw [getD_clearRange]
      by_cases hin : s.last_processed ≤ i ∧ i ≤ e
      · rw [if_pos hin]
      · rw [if_neg hin]
        exact hinv.below_none i (by omega)

theorem reach_inv (o : Oracle) (s : SlotShrdsCompact) (h : Reach o s) : SlotInv s := by
  induction h with
  | fresh slot => exact inv_new slot
  | add sh _ ih => exact inv_addShred sh _ ih
  | deshred _ heq ih => exact inv_tryDeshredFast _ _ _ _ ih heq

-- unfolding try_deshred_fast once the gap check has passed
theorem tryDeshredFast_checked (o : Oracle) (s : SlotShrdsCompact) (e : Nat) (rest : List Nat)
    (hse : s.segment_ends = e :: rest)
    (hchk : checkBits s.received_mask
      (List.range' s.last_processed (e + 1 - s.last_processed)) = some true)
    (hcond : s.last_processed ≤ e + 1 ∧ e + 1 ≤ s.shreds.length) :
    tryDeshredFast o s =
      match o.deshred (((s.shreds.drop s.last_processed).take
          (e + 1 - s.last_processed)).filterMap (fun os => os.map Shred.payload)) with
      | none => some (none, s)
      | some payload =>
        match o.deserialize payload with
        | none => some (none, s)
        | some entries =>
          some (some (entries, payload),
            { s with segment_ends := rest, last_processed := e + 1,
                     shreds := clearRange s.shreds s.last_processed e }) := by
  unfold tryDeshredFast
  rw [hse]
  simp only []
  rw [hchk]
  simp only []
  rw [if_pos hcond]
  try rfl

theorem tryDeshredFast_gap (o : Oracle) (s : SlotShrdsCompact) (e : Nat) (rest : List Nat)
    (hse : s.segment_ends = e :: rest)
    (hchk : checkBits s.received_mask
      (List.range' s.last_processed (e + 1 - s.last_processed)) = some false) :
    tryDeshredFast o s = some (none, s) := by
  unfold tryDeshredFast
  rw [hse]
  simp only []
  rw [hchk]

-- the b-side helper: all-form versus pointwise form of the no-gap condition
theorem nogap_iff (s : SlotShrdsCompact) (e : Nat) (hlp : s.last_processed ≤ e) :
    (List.range' s.last_processed (e + 1 - s.last_processed)).all
        (fun i => bitGet s.received_mask i) = true
      ↔ (∀ i, s.last_processed ≤ i → i ≤ e → bitGet s.received_mask i = true) := by
  rw [List.all_eq_true]
  constructor
  · intro h i h1 h2
    exact h i (List.mem_range'_1.mpr ⟨h1, by omega⟩)
  · intro h i hi
    obtain ⟨h1, h2⟩ := List.mem_range'_1.mp hi
    exact h i h1 (by omega)

theorem c5_core (o : Oracle) (s : SlotShrdsCompact) (e : Nat) (rest : List Nat)
    (hreach : Reach o s) (hse : s.segment_ends = e :: rest) (hlp : s.last_processed ≤ e) :
    ((¬ ∀ i, s.last_processed ≤ i → i ≤ e → bitGet s.received_mask i = true) →
        tryDeshredFast o s = some (none, s)) ∧
    (∀ payload entries,
        (∀ i, s.last_processed ≤ i → i ≤ e → bitGet s.received_mask i = true) →
        o.deshred (((s.shreds.drop s.last_processed).take (e + 1 - s.last_processed)).filterMap
          (fun os => os.map Shred.payload)) = some payload →
        o.deserialize payload = some entries →
        tryDeshredFast o s = some (some (entries, payload),
          { s with segment_ends := rest, last_processed := e + 1,
                   shreds := clearRange s.shreds s.last_processed e }) ∧
        (∀ i, s.last_processed ≤ i → i ≤ e →
          (clearRange s.shreds s.last_processed e).getD i none = none) ∧
        (∀ i, i < s.last_processed ∨ e < i →
          (clearRange s.shreds s.last_processed e).getD i none = s.shreds.getD i none)) ∧
    ((∀ i, s.last_processed ≤ i → i ≤ e → bitGet s.received_mask i = true) →
        o.deshred (((s.shreds.drop s.last_processed).take (e + 1 - s.last_processed)).filterMap
          (fun os => os.map Shred.payload)) = none →
        tryDeshredFast o s = some (none, s)) ∧
    (∀ payload,
        (∀ i, s.last_processed ≤ i → i ≤ e → bitGet s.received_mask i = true) →
        o.deshred (((s.shreds.drop s.last_processed).take (e + 1 - s.last_processed)).filterMap
          (fun os => os.map Shred.payload)) = some payload →
        o.deserialize payload = none →
        tryDeshredFast o s = some (none, s)) := by
  have hinv := reach_inv o s hreach
  have he512 : e < 512 := hinv.ends_lt e (hse ▸ List.mem_cons_self _ _)
  have hchk := checkBits_eq s.received_mask
    (List.range' s.last_processed (e + 1 - s.last_processed)) hinv.mask_len
    (by
      intro i hi
      obtain ⟨h1, h2⟩ := List.mem_range'_1.mp hi
      omega)
  have hcond : (∀ i, s.last_processed ≤ i → i ≤ e → bitGet s.received_mask i = true) →
      s.last_processed ≤ e + 1 ∧ e + 1 ≤ s.shreds.length := by
    intro hall
    refine ⟨by omega, ?_⟩
    have hbite : bitGet s.received_mask e = true := hall e hlp le_rfl
    rcases (hinv.bit_iff e).mp hbite with hh | hh
    · omega
    · by_contra hgt
      rw [List.getD_eq_default _ _ (by omega)] at hh
      exact Bool.noConfusion hh
  refine ⟨?_, ?_, ?_, ?_⟩
  · intro hgap
    have : (List.range' s.last_processed (e + 1 - s.last_processed)).all
        (fun i => bitGet s.received_mask i) = false := by
      rcases Bool.eq_false_or_eq_true ((List.range' s.last_processed
        (e + 1 - s.last_processed)).all (fun i => bitGet s.received_mask i)) with h | h
      · exact absurd ((nogap_iff s e hlp).mp h) hgap
      · exact h
    rw [this] at hchk
    exact tryDeshredFast_gap o s e rest hse hchk
  · intro payload entries hall hdes hent
    rw [(nogap_iff s e hlp).mpr hall] at hchk
    refine ⟨?_, ?_, ?_⟩
    · rw [tryDeshredFast_checked o s e rest hse hchk (hcond hall), hdes]
      dsimp only
      rw [hent]
    · intro i h1 h2
      rw [getD_clearRange, if_pos ⟨h1, h2⟩]
    · intro i hi
      rw [getD_clearRange, if_neg (by omega)]
  · intro hall hdes
    rw [(nogap_iff s e hlp).mpr hall] at hchk
    rw [tryDeshredFast_checked o s e rest hse hchk (hcond hall), hdes]
  · intro payload hall hdes hent
    rw [(nogap_iff s e hlp).mpr hall] at hchk
    rw [tryDeshredFast_checked o s e rest hse hchk (hcond hall), hdes]
    dsimp only
    rw [hent]

-- failed compact deshred leaves state unchanged
theorem tryDeshredFast_none_unchanged (o : Oracle) (s s' : SlotShrdsCompact)
    (h : tryDeshredFast o s = some (none, s')) : s' = s := by
  rcases tryDeshredFast_cases o s none s' h with ⟨-, rfl⟩ | ⟨e, rest, entries, payload,
    -, hr, -⟩
  · rfl
  · exact Option.noConfusion hr

-- failed unbounded deshred leaves state unchanged
theorem tryDeshred_none_unchanged (o : Oracle) (t t' : SlotShreds)
    (h : SlotShreds.tryDeshred o t = some (none, t')) : t' = t := by
  unfold SlotShreds.tryDeshred at h
  split at h
  · cases h
    rfl
  · split at h
    · dsimp only at h
      split at h
      · cases h
        rfl
      · split at h
        · cases h
          rfl
        · split at h
          · cases h
            rfl
          · rw [Option.some.injEq, Prod.mk.injEq] at h
            exact absurd h.1 (by simp)
    · exact Option.noConfusion h

-- last_processed never decreases
theorem addShred_lp (sh : Shred) (s : SlotShrdsCompact) :
    (SlotShrdsCompact.addShred sh s).2.last_processed = s.last_processed := by
  by_cases hrej : sh.index ≥ MAX_SHREDS_PER_SLOT ∨ bitGet s.received_mask sh.index = true
  · rw [addShred_reject sh s hrej]
  · push_neg at hrej
    rw [addShred_accept sh s (by omega) (Bool.not_eq_true _ ▸ hrej.2)]

theorem tryDeshredFast_lp (o : Oracle) (s : SlotShrdsCompact)
    (r : Option (List Nat × List Nat)) (s' : SlotShrdsCompact)
    (h : tryDeshredFast o s = some (r, s')) :
    s.last_processed ≤ s'.last_processed := by
  rcases tryDeshredFast_cases o s r s' h with ⟨-, rfl⟩ | ⟨e, rest, entries, payload,
    -, -, -, hle, -, -, -, rfl⟩
  · exact le_rfl
  · dsimp only
    omega

-- duplicate rejection, unbounded variant (data shred already present)
theorem addShred_unbounded_dup (sh : Shred) (t : SlotShreds)
    (ht : sh.shredType = ShredType.data)
    (hp : (t.data_shreds.getD sh.index none).isSome = true) :
    SlotShreds.addShred sh t = (false, t) := by
  unfold SlotShreds.addShred
  rw [ht]
  simp only []
  by_cases hidx : sh.index ≥ MAX_DATA_SHREDS_PER_SLOT
  · rw [if_pos hidx]
  · rw [if_neg hidx, if_pos hp]

-- C10 support: eviction happens before validation
theorem managerLocal_evict (o : Oracle) (sh : Shred) (m : DeshredManagerLocal)
    (st : SlotShrdsCompact)
    (hcol : m.slots.getD (sh.slot % SLOT_WINDOW_SIZE) none = some st)
    (hne : st.slot ≠ sh.slot)
    (hidx : sh.index ≥ MAX_SHREDS_PER_SLOT) :
    DeshredManagerLocal.addShred o sh m =
      some (none,
        { slots := m.slots.set (sh.slot % SLOT_WINDOW_SIZE)
            (some (SlotShrdsCompact.new sh.slot))
          current_slot := sh.slot }) := by
  unfold DeshredManagerLocal.addShred
  simp only [hcol]
  rw [if_neg hne]
  rw [addShred_reject sh (SlotShrdsCompact.new sh.slot) (Or.inl hidx)]
  dsimp only
  rw [if_pos rfl]

theorem countP_or_disjoint {α : Type} (l : List α) (p q : α → Bool)
    (h : ∀ a ∈ l, p a = true → q a = false) :
    l.countP (fun a => p a || q a) = l.countP p + l.countP q := by
  induction l with
  | nil => rfl
  | cons a rest ih =>
    rw [List.countP_cons, List.countP_cons, List.countP_cons,
      ih (fun x hx => h x (List.mem_cons_of_mem _ hx))]
    rcases hp : p a with _ | _
    · rcases hq : q a with _ | _ <;> (simp [hp, hq]; try omega)
    · have := h a (List.mem_cons_self _ _) hp
      simp [hp, this]
      omega

theorem countP_range_lt (m n : Nat) :
    (List.range n).countP (fun i => decide (i < m)) = min m n := by
  induction n with
  | zero => simp
  | succ k ih =>
    rw [List.range_succ, List.countP_append, ih]
    simp only [List.countP_cons, List.countP_nil]
    by_cases hk : k < m
    · rw [if_pos (by simpa using hk)]
      omega
    · rw [if_neg (by simpa using hk)]
      omega

theorem countP_range_getD {α : Type} (l : List α) (d : α) (p : α → Bool) :
    (List.range l.length).countP (fun i => p (l.getD i d)) = l.countP p := by
  induction l with
  | nil => rfl
  | cons x xs ih =>
    rw [List.length_cons, List.range_succ_eq_map]
    rw [List.countP_cons, List.countP_map, List.countP_cons]
    have : ((fun i => p ((x :: xs).getD i d)) ∘ Nat.succ) = fun i => p (xs.getD i d) := by
      funext i
      simp only [Function.comp_apply, List.getD_cons_succ]
    rw [this, ih]
    simp only [List.getD_cons_zero]

theorem countP_range_getD_of_le {α : Type} (l : List α) (d : α) (p : α → Bool) (n : Nat)
    (hn : l.length ≤ n) (hd : p d = false) :
    (List.range n).countP (fun i => p (l.getD i d)) = l.countP p := by
  have hsplit : List.range n = List.range l.length ++ List.range' l.length (n - l.length) := by
    rw [List.range_eq_range', List.range_eq_range']
    have h2 : n - l.length + l.length = n := by omega
    conv_lhs => rw [← h2]
    rw [← List.range'_append 0 l.length (n - l.length) 1]
    norm_num
  rw [hsplit, List.countP_append, countP_range_getD]
  have : (List.range' l.length (n - l.length)).countP (fun i => p (l.getD i d)) = 0 := by
    rw [List.countP_eq_zero]
    intro i hi
    obtain ⟨h1, h2⟩ := List.mem_range'_1.mp hi
    rw [List.getD_eq_default _ _ h1, hd]
    simp
  rw [this]
  omega

theorem c3_count (s : SlotShrdsCompact) (hinv : SlotInv s) :
    countOnes s.received_mask
      = s.last_processed + s.shreds.countP Option.isSome := by
  unfold countOnes
  have hpt : ∀ i ∈ List.range 512,
      bitGet s.received_mask i = true ↔
        (decide (i < s.last_processed) || (s.shreds.getD i none).isSome) = true := by
    intro i _
    rw [hinv.bit_iff i]
    simp
  rw [List.countP_congr hpt]
  rw [countP_or_disjoint _ _ _ (by
    intro i _ hp
    rw [hinv.below_none i (by simpa using hp)]
    rfl)]
  rw [countP_range_lt]
  rw [countP_range_getD_of_le _ _ _ _ hinv.shreds_len rfl]
  have := hinv.lp_le
  omega

/-! ## Relay-loop lemmas -/

namespace Relay

theorem allFrames_returnToFill (a : Nat) (st : LoopState) :
    allFrames (returnToFill a st) = a ::ₘ allFrames st := by
  unfold returnToFill Ring.write
  split
  · rename_i f hf
    split at hf
    · cases hf
      simp only [allFrames, ← Multiset.coe_add, ← Multiset.singleton_add, Multiset.coe_singleton]
      abel
    · exact Option.noConfusion hf
  · simp only [allFrames, ← Multiset.cons_coe, ← Multiset.singleton_add, Multiset.coe_singleton]
    abel

theorem allFrames_processRxDesc (fwd : Bool) (st : LoopState) (d : RxDesc) :
    allFrames (processRxDesc fwd st d) = d.addr ::ₘ allFrames st := by
  unfold processRxDesc
  split
  · exact allFrames_returnToFill _ _
  · split
    · exact allFrames_returnToFill _ _
    · split
      · split
        · rename_i t ht
          unfold Ring.write at ht
          split at ht
          · cases ht
            simp only [allFrames, ← Multiset.coe_add, ← Multiset.singleton_add,
              Multiset.coe_singleton]
            abel
          · exact Option.noConfusion ht
        · exact allFrames_returnToFill _ _
      · exact allFrames_returnToFill _ _

theorem allFrames_foldRx (fwd : Bool) (ds : List RxDesc) (st : LoopState) :
    allFrames (ds.foldl (processRxDesc fwd) st)
      = ((ds.map RxDesc.addr : List Nat) : Multiset Nat) + allFrames st := by
  induction ds generalizing st with
  | nil => simp
  | cons d rest ih =>
    simp only [List.foldl_cons, List.map_cons, ih, allFrames_processRxDesc,
      ← Multiset.cons_coe, ← Multiset.singleton_add, Multiset.coe_singleton]
    abel

theorem foldl_cons_coe (l acc : List Nat) :
    ((l.foldl (fun p a => a :: p) acc : List Nat) : Multiset Nat)
      = (l : Multiset Nat) + (acc : Multiset Nat) := by
  induction l generalizing acc with
  | nil => simp
  | cons a rest ih =>
    simp only [List.foldl_cons, ih, ← Multiset.cons_coe, ← Multiset.singleton_add,
      Multiset.coe_singleton]
    abel

theorem allFrames_drainCompletion (st : LoopState) :
    allFrames (drainCompletion st) = allFrames st := by
  simp only [drainCompletion, allFrames, foldl_cons_coe, Multiset.coe_nil]
  abel

theorem refill_frames (f : Ring) (p : List Nat) :
    ((refill f p).1.buf : Multiset Nat) + ((refill f p).2 : Multiset Nat)
      = (f.buf : Multiset Nat) + (p : Multiset Nat) := by
  induction p generalizing f with
  | nil => simp [refill]
  | cons a rest ih =>
    unfold refill
    split
    · rw [ih]
      simp only [← Multiset.coe_add, ← Multiset.cons_coe, ← Multiset.singleton_add,
        Multiset.coe_singleton]
      abel
    · rfl

theorem allFrames_relayIteration (fwd : Bool) (st : LoopState) :
    allFrames (relayIteration fwd st) = allFrames st := by
  unfold relayIteration
  set c := drainCompletion st with hc
  set st2 := c.rx.foldl (processRxDesc fwd) { c with rx := [] } with hst2
  have h3 := refill_frames st2.fill st2.pool
  have hfinal :
      allFrames { st2 with fill := (refill st2.fill st2.pool).1, pool := (refill st2.fill st2.pool).2 }
        = allFrames st2 := by
    simp only [allFrames]
    calc ((refill st2.fill st2.pool).2 : Multiset Nat)
          + ((refill st2.fill st2.pool).1.buf : Multiset Nat)
          + ((st2.rx.map RxDesc.addr : List Nat) : Multiset Nat)
          + (st2.tx.buf : Multiset Nat) + (st2.comp : Multiset Nat)
        = (((refill st2.fill st2.pool).1.buf : Multiset Nat)
            + ((refill st2.fill st2.pool).2 : Multiset Nat))
          + ((st2.rx.map RxDesc.addr : List Nat) : Multiset Nat)
          + (st2.tx.buf : Multiset Nat) + (st2.comp : Multiset Nat) := by abel
      _ = ((st2.fill.buf : Multiset Nat) + (st2.pool : Multiset Nat))
          + ((st2.rx.map RxDesc.addr : List Nat) : Multiset Nat)
          + (st2.tx.buf : Multiset Nat) + (st2.comp : Multiset Nat) := by
            rw [h3]
      _ = (st2.pool : Multiset Nat) + (st2.fill.buf : Multiset Nat)
          + ((st2.rx.map RxDesc.addr : List Nat) : Multiset Nat)
          + (st2.tx.buf : Multiset Nat) + (st2.comp : Multiset Nat) := by abel
  rw [hfinal, hst2, allFrames_foldRx]
  have hc0 : allFrames { c with rx := [] }
      + ((c.rx.map RxDesc.addr : List Nat) : Multiset Nat) = allFrames c := by
    simp only [allFrames, List.map_nil, Multiset.coe_nil]
    abel
  rw [add_comm, hc0, hc, allFrames_drainCompletion]

/-- C9: every RX packet shorter than 442 bytes, or whose IP-protocol byte
at packet offset 23 is not 17 (UDP), produces no TX descriptor; its frame
is returned to the Fill ring, falling back to the free pool only when Fill
is full. -/
theorem c9_filter_to_fill (fwd : Bool) (st : LoopState) (d : RxDesc)
    (h : d.packet.length < 442 ∨ d.packet.getD 23 0 ≠ 17) :
    processRxDesc fwd st d = returnToFill d.addr st ∧
    (processRxDesc fwd st d).tx = st.tx ∧
    (if st.fill.buf.length < st.fill.cap
     then processRxDesc fwd st d = { st with fill := { st.fill with buf := st.fill.buf ++ [d.addr] } }
     else processRxDesc fwd st d = { st with pool := d.addr :: st.pool }) := by
  have hret : processRxDesc fwd st d = returnToFill d.addr st := by
    unfold processRxDesc
    rcases h with h | h
    · rw [if_pos (by simpa [HEADER_SIZE, VOTE_SIZE_THRESHOLD] using h)]
    · by_cases hl : d.packet.length < HEADER_SIZE + VOTE_SIZE_THRESHOLD
      · rw [if_pos hl]
      · rw [if_neg hl, if_pos (by simpa [IPPROTO_UDP] using h)]
  refine ⟨hret, ?_, ?_⟩
  · rw [hret]
    unfold returnToFill
    split <;> rfl
  · rw [hret]
    unfold returnToFill Ring.write
    split <;> rfl

end Relay

/-! ## Additional support lemmas -/

/-- No status of a fresh unbounded slot state is `DataComplete`. -/
theorem new_status_pointwise (slot : Nat) : ∀ (i : Nat) (x : ShredStatus),
    (SlotShreds.new slot).data_status[i]? = some x → x ≠ ShredStatus.dataComplete := by
  intro i x h hx
  subst hx
  rw [show (SlotShreds.new slot).data_status
    = List.replicate 32768 ShredStatus.unknown from rfl] at h
  rw [List.getElem?_replicate] at h
  exact ifSomeNe (by decide) h

/-- A fresh unbounded slot state has no complete segment. -/
theorem findCompleteSegment_new (slot : Nat) :
    findCompleteSegment (SlotShreds.new slot) = none := by
  unfold findCompleteSegment
  rw [findIdx_none_of_pointwise _ (new_status_pointwise slot)]

/-! ## Claim theorems -/

/-- C1: the spec demands that the unbounded reassembler (`DeshredManager`)
and the windowed reassembler (`DeshredManagerLocal`) produce identical
outputs on identical inputs when no eviction occurs, including on inputs
with more than one data-complete segment per slot.  Evaluating both on
`c1Input` (slot 0; terminators at indices 1 and 3; no eviction) shows the
windowed variant emits both segments while the unbounded variant emits only
the first: after consuming segment `[0, 1]` it resets those statuses to
`Unknown`, so its backwards scan reports a gap below every later terminator
and it never emits again. -/
theorem c1_windowed_vs_unbounded_divergence :
    (runLocal oracleAll c1Input DeshredManagerLocal.new).map Prod.fst
        = some [none, some (0, [0, 1], [0, 1]), none, some (0, [2, 3], [2, 3])] ∧
    (runUnbounded oracleAll c1Input DeshredManager.new).map Prod.fst
        = some [none, some (0, [0, 1], [0, 1]), none, none] ∧
    (runLocal oracleAll c1Input DeshredManagerLocal.new).map Prod.fst
        ≠ (runUnbounded oracleAll c1Input DeshredManager.new).map Prod.fst := by
  refine ⟨run_local_c1, ?_, ?_⟩
  · rw [run_unbounded_c1]
    rfl
  · rw [run_unbounded_c1, run_local_c1]
    decide

/-- C2: the spec demands that the compact reassembler never panics at
steady state and rejects a terminator below `last_processed`.  The code does
neither: on `c2Input` (terminators arriving as 5 then 4, then one more
shred) the seventh call reaches `try_deshred_fast` with
`segment_ends = [4]` and `last_processed = 6`, and the slice
`&self.shreds[6..=4]` panics (modelled by the `none` result). -/
theorem c2_out_of_order_terminator_panics :
    runSlotCompact oracleAll c2Input (SlotShrdsCompact.new 0) = none ∧
    runSlotCompact oracleAll (c2Input.take 6) (SlotShrdsCompact.new 0)
      = some ([none, none, none, none, none,
          some ([0, 1, 2, 3, 4, 5], [0, 1, 2, 3, 4, 5])], w6e) := by
  constructor
  · decide
  · decide

/-- C3 (counterexample): the claim "bit `i` of `received_mask` is set iff a
data shred with index `i` is currently stored" fails on the reachable state
`v1e` obtained by one insertion and one successful emission: bit 0 is set
but the stored shred was cleared, and the popcount exceeds the number of
present entries. -/
theorem c3_bitmask_counterexample :
    Reach oracleAll v1e ∧ bitGet v1e.received_mask 0 = true ∧
    v1e.shreds.getD 0 none = none ∧
    countOnes v1e.received_mask ≠ v1e.shreds.countP Option.isSome := by
  refine ⟨Reach.deshred
    (Reach.add (mkData 0 true) (Reach.fresh 0) : Reach oracleAll v1)
    (show tryDeshredFast oracleAll v1 = some (some ([0], [0]), v1e) by decide),
    by decide, by decide, by decide⟩

/-- C3 (amended): for every reachable compact slot state, bit `i` of
`received_mask` is set iff a data shred with index `i` is currently stored
or `i` lies below `last_processed` (it was consumed by an emission);
accordingly `count_ones` equals the number of present entries plus
`last_processed`.  Before any emission (`last_processed = 0`) this is
exactly the original claim. -/
theorem c3_bitmask_amended (o : Oracle) (s : SlotShrdsCompact) (h : Reach o s) :
    (∀ i : Nat, bitGet s.received_mask i = true ↔
      (i < s.last_processed ∨ (s.shreds.getD i none).isSome = true)) ∧
    countOnes s.received_mask = s.last_processed + s.shreds.countP Option.isSome :=
  ⟨(reach_inv o s h).bit_iff, c3_count s (reach_inv o s h)⟩

/-- Witness for C3 (amended) at the concrete reachable state `v1e`. -/
theorem c3_bitmask_amended_witness :
    bitGet v1e.received_mask 0 = true ∧
    countOnes v1e.received_mask = v1e.last_processed + v1e.shreds.countP Option.isSome := by
  have hreach : Reach oracleAll v1e :=
    Reach.deshred (Reach.add (mkData 0 true) (Reach.fresh 0) : Reach oracleAll v1)
      (show tryDeshredFast oracleAll v1 = some (some ([0], [0]), v1e) by decide)
  have h := c3_bitmask_amended oracleAll v1e hreach
  exact ⟨(h.1 0).mpr (Or.inl (by decide)), h.2⟩

/-- C5 (counterexample): "`try_deshred` emits exactly when `segment_ends`
is non-empty and every index in `[last_processed, segment_ends.front()]`
has its received bit set and deshred plus deserialization succeed" fails on
the reachable state `c5CexState`: `segment_ends = [4]`,
`last_processed = 6`, the gap check over the (empty) range passes and the
always-successful oracle is in use, yet the call panics (`none`) instead of
emitting. -/
theorem c5_try_deshred_counterexample :
    Reach oracleAll c5CexState ∧ c5CexState.segment_ends = [4] ∧
    c5CexState.last_processed = 6 ∧
    checkBits c5CexState.received_mask
      (List.range' c5CexState.last_processed (4 + 1 - c5CexState.last_processed))
      = some true ∧
    tryDeshredFast oracleAll c5CexState = none := by
  have h0 : Reach oracleAll (SlotShrdsCompact.new 0) := Reach.fresh 0
  have h1 := Reach.add (mkData 0 false) h0
  have h2 := Reach.add (mkData 1 false) h1
  have h3 := Reach.add (mkData 2 false) h2
  have h4 := Reach.add (mkData 3 false) h3
  have h5 := Reach.add (mkData 5 true) h4
  have h6 : Reach oracleAll w6 := Reach.add (mkData 4 true) h5
  have hE : tryDeshredFast oracleAll w6
      = some (some ([0, 1, 2, 3, 4, 5], [0, 1, 2, 3, 4, 5]), w6e) := by decide
  refine ⟨Reach.add (mkData 6 false) (Reach.deshred h6 hE), by decide, by decide,
    by decide, by decide⟩

/-- C5 (amended): for every reachable compact slot state whose pending
terminator `e` satisfies `last_processed ≤ e` (the spec's required
precondition on terminators), `try_deshred_fast` emits exactly when every
index in `[last_processed, e]` has its received bit set and the deshred
plus deserialization oracle calls succeed; on success it pops the head of
`segment_ends`, sets `last_processed = e + 1`, clears exactly the stored
shreds in `[last_processed, e]` while leaving `received_mask` untouched,
and returns the entries with the deshredded payload; on a gap or an oracle
failure it returns `None` with the state unchanged. -/
theorem c5_try_deshred_amended (o : Oracle) (s : SlotShrdsCompact) (e : Nat)
    (rest : List Nat) (hreach : Reach o s) (hse : s.segment_ends = e :: rest)
    (hlp : s.last_processed ≤ e) :
    ((¬ ∀ i, s.last_processed ≤ i → i ≤ e → bitGet s.received_mask i = true) →
        tryDeshredFast o s = some (none, s)) ∧
    (∀ payload entries,
        (∀ i, s.last_processed ≤ i → i ≤ e → bitGet s.received_mask i = true) →
        o.deshred (((s.shreds.drop s.last_processed).take (e + 1 - s.last_processed)).filterMap
          (fun os => os.map Shred.payload)) = some payload →
        o.deserialize payload = some entries →
        tryDeshredFast o s = some (some (entries, payload),
          { s with segment_ends := rest, last_processed := e + 1,
                   shreds := clearRange s.shreds s.last_processed e }) ∧
        (∀ i, s.last_processed ≤ i → i ≤ e →
          (clearRange s.shreds s.last_processed e).getD i none = none) ∧
        (∀ i, i < s.last_processed ∨ e < i →
          (clearRange s.shreds s.last_processed e).getD i none = s.shreds.getD i none)) ∧
    ((∀ i, s.last_processed ≤ i → i ≤ e → bitGet s.received_mask i = true) →
        o.deshred (((s.shreds.drop s.last_processed).take (e + 1 - s.last_processed)).filterMap
          (fun os => os.map Shred.payload)) = none →
        tryDeshredFast o s = some (none, s)) ∧
    (∀ payload,
        (∀ i, s.last_processed ≤ i → i ≤ e → bitGet s.received_mask i = true) →
        o.deshred (((s.shreds.drop s.last_processed).take (e + 1 - s.last_processed)).filterMap
          (fun os => os.map Shred.payload)) = some payload →
        o.deserialize payload = none →
        tryDeshredFast o s = some (none, s)) :=
  c5_core o s e rest hreach hse hlp

/-- Witness for C5 (amended): at `v1` the successful-emission branch fires. -/
theorem c5_try_deshred_amended_witness :
    tryDeshredFast oracleAll v1 = some (some ([0], [0]),
      { v1 with segment_ends := [], last_processed := 0 + 1,
                shreds := clearRange v1.shreds v1.last_processed 0 }) := by
  have hreach : Reach oracleAll v1 := Reach.add (mkData 0 true) (Reach.fresh 0)
  have h := (c5_try_deshred_amended oracleAll v1 0 [] hreach (by decide) (by decide)).2.1
  have hall : ∀ i, v1.last_processed ≤ i → i ≤ 0 → bitGet v1.received_mask i = true := by
    intro i h1 h2
    have hi : i = 0 := by omega
    subst hi
    decide
  exact (h [0] [0] hall (by decide) (by decide)).1

/-- C6: a failed deshred attempt is atomic — whenever `try_deshred_fast`
(compact) or `try_deshred` (unbounded) returns `None`, the slot state is
exactly as it was before the call. -/
theorem c6_failed_deshred_unchanged (o : Oracle) (s s' : SlotShrdsCompact)
    (t t' : SlotShreds) :
    (tryDeshredFast o s = some (none, s') → s' = s) ∧
    (SlotShreds.tryDeshred o t = some (none, t') → t' = t) :=
  ⟨tryDeshredFast_none_unchanged o s s', tryDeshred_none_unchanged o t t'⟩

/-- Witness for C6: a gap state (terminator at 1, index 0 missing) for the
compact variant and a fresh state for the unbounded variant. -/
theorem c6_failed_deshred_unchanged_witness :
    tryDeshredFast oracleAll vGap = some (none, vGap) ∧
    SlotShreds.tryDeshred oracleAll (SlotShreds.new 0)
      = some (none, SlotShreds.new 0) ∧
    vGap = vGap ∧ SlotShreds.new 0 = SlotShreds.new 0 := by
  have hu : SlotShreds.tryDeshred oracleAll (SlotShreds.new 0)
      = some (none, SlotShreds.new 0) :=
    tryDeshred_of_find_none _ _ (findCompleteSegment_new 0)
  refine ⟨by decide, hu, ?_, ?_⟩
  · exact (c6_failed_deshred_unchanged oracleAll vGap vGap
      (SlotShreds.new 0) (SlotShreds.new 0)).1 (by decide)
  · exact (c6_failed_deshred_unchanged oracleAll vGap vGap
      (SlotShreds.new 0) (SlotShreds.new 0)).2 hu

/-- C7: `last_processed` never decreases — `add_shred` never writes it, and
every non-panicking `try_deshred_fast` call leaves it equal or larger. -/
theorem c7_last_processed_monotone (o : Oracle) (sh : Shred) (s : SlotShrdsCompact)
    (r : Option (List Nat × List Nat)) (s' : SlotShrdsCompact) :
    (SlotShrdsCompact.addShred sh s).2.last_processed = s.last_processed ∧
    (tryDeshredFast o s = some (r, s') → s.last_processed ≤ s'.last_processed) :=
  ⟨addShred_lp sh s, tryDeshredFast_lp o s r s'⟩

/-- Witness for C7: an insertion and the emission from `v1` to `v1e`. -/
theorem c7_last_processed_monotone_witness :
    (SlotShrdsCompact.addShred (mkData 0 true) (SlotShrdsCompact.new 0)).2.last_processed
      = (SlotShrdsCompact.new 0).last_processed ∧
    v1.last_processed ≤ v1e.last_processed := by
  refine ⟨(c7_last_processed_monotone oracleAll (mkData 0 true)
    (SlotShrdsCompact.new 0) none (SlotShrdsCompact.new 0)).1, ?_⟩
  exact (c7_last_processed_monotone oracleAll (mkData 0 true) v1
    (some ([0], [0])) v1e).2 (by decide)

/-- C8: `add_shred` is idempotent on duplicates — a shred whose received
bit is already set (compact) or whose table entry is already present
(unbounded) is reported as a duplicate (`false`) and the state is
unchanged. -/
theorem c8_duplicate_noop (sh1 sh2 : Shred) (s : SlotShrdsCompact) (t : SlotShreds)
    (hbit : bitGet s.received_mask sh1.index = true)
    (ht : sh2.shredType = ShredType.data)
    (hp : (t.data_shreds.getD sh2.index none).isSome = true) :
    SlotShrdsCompact.addShred sh1 s = (false, s) ∧
    SlotShreds.addShred sh2 t = (false, t) :=
  ⟨addShred_reject sh1 s (Or.inr hbit), addShred_unbounded_dup sh2 t ht hp⟩

/-- Witness for C8: re-feeding index 0 into `v1` and `u1`. -/
theorem c8_duplicate_noop_witness :
    SlotShrdsCompact.addShred (mkData 0 false) v1 = (false, v1) ∧
    SlotShreds.addShred (mkData 0 false) u1 = (false, u1) :=
  c8_duplicate_noop (mkData 0 false) (mkData 0 false) v1 u1
    (by decide) (by decide) (by decide)

/-- C10: in `DeshredManagerLocal::add_shred`, window eviction happens before
validation — when the resident entry holds a different slot, it is replaced
by a fresh state even if the incoming shred is then rejected for an
out-of-range index, so the call returns `None` while the previously
resident slot state is already gone. -/
theorem c10_eviction_before_validation (o : Oracle) (sh : Shred)
    (m : DeshredManagerLocal) (st : SlotShrdsCompact)
    (hlen : m.slots.length = SLOT_WINDOW_SIZE)
    (hcol : m.slots.getD (sh.slot % SLOT_WINDOW_SIZE) none = some st)
    (hne : st.slot ≠ sh.slot) (hidx : sh.index ≥ MAX_SHREDS_PER_SLOT) :
    DeshredManagerLocal.addShred o sh m =
      some (none,
        { slots := m.slots.set (sh.slot % SLOT_WINDOW_SIZE)
            (some (SlotShrdsCompact.new sh.slot))
          current_slot := sh.slot }) ∧
    (m.slots.set (sh.slot % SLOT_WINDOW_SIZE) (some (SlotShrdsCompact.new sh.slot))).getD
        (sh.slot % SLOT_WINDOW_SIZE) none = some (SlotShrdsCompact.new sh.slot) := by
  refine ⟨managerLocal_evict o sh m st hcol hne hidx, ?_⟩
  rw [List.getD_eq_getElem?_getD,
    List.getElem?_set_self (by rw [hlen]; exact Nat.mod_lt _ (by decide))]
  rfl

/-- Witness for C10: slot 133 collides with resident slot 5 at window index
5; the incoming shred has index 512 and is rejected, yet slot 5's state is
replaced by a fresh slot-133 state. -/
theorem c10_eviction_before_validation_witness :
    DeshredManagerLocal.addShred oracleAll c10Shred c10Manager =
      some (none,
        { slots := c10Manager.slots.set (c10Shred.slot % SLOT_WINDOW_SIZE)
            (some (SlotShrdsCompact.new c10Shred.slot))
          current_slot := c10Shred.slot }) ∧
    (c10Manager.slots.set (c10Shred.slot % SLOT_WINDOW_SIZE)
        (some (SlotShrdsCompact.new c10Shred.slot))).getD
      (c10Shred.slot % SLOT_WINDOW_SIZE) none = some (SlotShrdsCompact.new c10Shred.slot) :=
  c10_eviction_before_validation oracleAll c10Shred c10Manager
    (SlotShrdsCompact.new 5) (by decide) (by decide) (by decide) (by decide)

namespace Relay

/-- C4: one iteration of the relay main loop conserves frames — the
multiset of frames over all owners (free pool, Fill, RX, TX, Completion)
is unchanged, so the total frame count is constant and, whenever no frame
started in two owners, no frame ends in two owners. -/
theorem c4_frame_conservation (forward : Bool) (st : LoopState) :
    (allFrames (relayIteration forward st) = allFrames st ∧
      ((allFrames st).Nodup ↔ (allFrames (relayIteration forward st)).Nodup)) ∧
    (∀ d : RxDesc, HEADER_SIZE + VOTE_SIZE_THRESHOLD ≤ d.packet.length →
      d.packet.getD (14 + 9) 0 = IPPROTO_UDP → st.tx.cap ≤ st.tx.buf.length →
      processRxDesc true st d = returnToFill d.addr st) ∧
    (∀ a : Nat, st.fill.cap ≤ st.fill.buf.length →
      returnToFill a st = { st with pool := a :: st.pool }) := by
  have h := allFrames_relayIteration forward st
  refine ⟨⟨h, by rw [h]⟩, ?_, ?_⟩
  · intro d h1 h2 h3
    unfold processRxDesc
    rw [if_neg (by omega), if_neg (fun hk => hk h2), if_pos rfl]
    unfold Ring.write
    rw [if_neg (by omega)]
  · intro a h1
    unfold returnToFill Ring.write
    rw [if_neg (by omega)]

/-- Witness for C4: on a state with full TX and Fill rings, an eligible
packet's frame falls back to Fill handling and then to the free pool. -/
theorem c4_frame_conservation_witness :
    allFrames (relayIteration true c4FullState) = allFrames c4FullState ∧
    processRxDesc true c4FullState c4Desc = returnToFill c4Desc.addr c4FullState ∧
    returnToFill c4Desc.addr c4FullState
      = { c4FullState with pool := c4Desc.addr :: c4FullState.pool } := by
  have h := c4_frame_conservation true c4FullState
  exact ⟨h.1.1, h.2.1 c4Desc (by decide) (by decide) (by decide),
    h.2.2 c4Desc.addr (by decide)⟩

/-- Witness for C9: the 100-byte packet in frame 7 is returned to Fill and
produces no TX descriptor. -/
theorem c9_filter_to_fill_witness :
    processRxDesc true c9State c9Desc = returnToFill c9Desc.addr c9State ∧
    (processRxDesc true c9State c9Desc).tx = c9State.tx := by
  have h := c9_filter_to_fill true c9State c9Desc (Or.inl (by decide))
  exact ⟨h.1, h.2.1⟩

end Relay

end Axdp
